import Mathlib

/-!
Verification of the gold-price scraping and cleaning pipeline.

The development is a shallow embedding of two source files:

* `airflow/include/utils/scrape_gold.py` — `scrape_gold_prices` merges a
  freshly fetched batch of price bars into the persisted raw series:
  concatenate, `drop_duplicates(subset=[Date], keep=last)`, sort by date.
* `airflow/include/utils/data_cleaner.py` — `GoldDataCleaner` runs
  duplicate removal, missing-value imputation (ffill then bfill then
  dropna), a high/low swap validator, IQR-based outlier counting and a
  final sort, accumulating a cleaning report.
* `airflow/dags/gold_scraper_dag.py` — `validate_data_task` checks a
  cleaned dataset for a non-zero row count and the required column set.

A pandas DataFrame row becomes a `Row`; a nullable numeric cell (NaN)
becomes `Option ℚ`; a possibly-NaT date cell becomes `Option ℤ` (day
number).  `Volume` is an integer because `_convert_data_types` coerces
it with `fillna(0).astype(np.int64)`.  pandas `sort_values` is embedded
as a comparison sort placing null dates last, matching the default
`na_position` behaviour; since every sort in the pipeline runs on rows
with pairwise-distinct dates, the choice of a stable algorithm is
immaterial.
-/

/-- One OHLCV price bar, i.e. one row of the pipeline's DataFrame after
`_convert_data_types`.  Field names follow the source's column names. -/
structure Row where
  Date : Option ℤ
  Open : Option ℚ
  High : Option ℚ
  Low : Option ℚ
  Close : Option ℚ
  Volume : ℤ
deriving DecidableEq, Repr

/-- pandas `sort_values('Date')` comparison: dates ascending, null (NaT)
dates placed last. -/
def dateLe (a b : Row) : Prop :=
  match a.Date, b.Date with
  | some x, some y => x ≤ y
  | some _, none => True
  | none, some _ => False
  | none, none => True

instance : DecidableRel dateLe := fun a b => by
  unfold dateLe
  rcases a.Date with _ | x <;> rcases b.Date with _ | y <;> exact inferInstance

instance : IsTotal Row dateLe where
  total a b := by
    unfold dateLe
    rcases a.Date with _ | x <;> rcases b.Date with _ | y <;> simp [le_total]

instance : IsTrans Row dateLe where
  trans a b c := by
    unfold dateLe
    rcases a.Date with _ | x <;> rcases b.Date with _ | y <;>
      rcases c.Date with _ | z <;> simp <;> try omega

/-- `df.sort_values(by=date_col).reset_index(drop=True)` — the body of
`GoldDataCleaner._sort_data` and the final sort of `scrape_gold_prices`.
In the list embedding the dense zero-based index is the list position. -/
def sort_data (rows : List Row) : List Row :=
  List.insertionSort dateLe rows

/-- `df.drop_duplicates(subset=[Date], keep='last')`: a row survives
exactly when no later row carries the same date, so the last occurrence
of every date is kept, in its original position order. -/
def dedupKeepLast : List Row → List Row
  | [] => []
  | x :: xs =>
    if xs.any (fun y => decide (y.Date = x.Date)) then dedupKeepLast xs
    else x :: dedupKeepLast xs

/-- The merge transform at the heart of `scrape_gold_prices` when the raw
file already exists: `pd.concat([df_old, df_new])`, then
`drop_duplicates(subset=[Date], keep='last')`, then `sort_values('Date')`. -/
def merge (existing incoming : List Row) : List Row :=
  sort_data (dedupKeepLast (existing ++ incoming))

/-- `scrape_gold_prices` control flow around the merge: the scraped batch
`incoming` is checked with `if df_new.empty: raise ValueError(...)` before
the raw file is even consulted; `existing = none` is the no-raw-file
branch, which persists the new batch alone (sorted, no dedup). -/
def scrape_gold_prices (existing : Option (List Row)) (incoming : List Row) :
    Except String (List Row) :=
  if incoming.isEmpty then
    Except.error "No data retrieved from yfinance"
  else
    match existing with
    | some old => Except.ok (sort_data (dedupKeepLast (old ++ incoming)))
    | none => Except.ok (sort_data incoming)

/-- `GoldDataCleaner._handle_duplicates`: drop duplicate-date rows keeping
the last, and record `before - len(self.df)` as `duplicates_removed`. -/
def handle_duplicates (rows : List Row) : List Row × Nat :=
  let kept := dedupKeepLast rows
  (kept, rows.length - kept.length)

/-- Number of null cells among the four price fields of one row — one
row's contribution to `self.df[price_cols].isna().sum().sum()`. -/
def rowMissing (r : Row) : Nat :=
  (if r.Open = none then 1 else 0) + (if r.High = none then 1 else 0) +
    (if r.Low = none then 1 else 0) + (if r.Close = none then 1 else 0)

/-- `self.df[price_cols].isna().sum().sum()` — total null price cells. -/
def countMissing (rows : List Row) : Nat :=
  (rows.map rowMissing).sum

/-- One column's forward fill (`Series.ffill`): a null cell is replaced by
the carried last non-null value above it; leading nulls (carry `none`)
stay null. -/
def ffillCol (get : Row → Option ℚ) (set : Row → Option ℚ → Row) :
    Option ℚ → List Row → List Row
  | _, [] => []
  | carry, r :: rs =>
    match get r with
    | some v => r :: ffillCol get set (some v) rs
    | none => set r carry :: ffillCol get set carry rs

/-- One column's backward fill (`Series.bfill`), as a forward fill of the
reversed column. -/
def bfillCol (get : Row → Option ℚ) (set : Row → Option ℚ → Row)
    (rows : List Row) : List Row :=
  (ffillCol get set none rows.reverse).reverse

def setOpen (r : Row) (v : Option ℚ) : Row := { r with Open := v }

def setHigh (r : Row) (v : Option ℚ) : Row := { r with High := v }

def setLow (r : Row) (v : Option ℚ) : Row := { r with Low := v }

def setClose (r : Row) (v : Option ℚ) : Row := { r with Close := v }

/-- `self.df[price_cols].ffill()` — each of the four price columns is
forward-filled independently. -/
def ffillAll (rows : List Row) : List Row :=
  ffillCol (·.Close) setClose none
    (ffillCol (·.Low) setLow none
      (ffillCol (·.High) setHigh none
        (ffillCol (·.Open) setOpen none rows)))

/-- `.bfill()` applied after the forward fill, column by column. -/
def bfillAll (rows : List Row) : List Row :=
  bfillCol (·.Close) setClose
    (bfillCol (·.Low) setLow
      (bfillCol (·.High) setHigh
        (bfillCol (·.Open) setOpen rows)))

/-- Predicate for `dropna(subset=price_cols)`: the row is kept when every
price field is non-null. -/
def pricesComplete (r : Row) : Bool :=
  r.Open.isSome && r.High.isSome && r.Low.isSome && r.Close.isSome

/-- `GoldDataCleaner._handle_missing_values`: count the null price cells;
if any, forward-fill then back-fill the price columns and drop the rows
still incomplete, recording the pre-fill count as
`missing_values_handled`; otherwise leave the frame and the zero counter
untouched. -/
def handle_missing_values (rows : List Row) : List Row × Nat :=
  let missing := countMissing rows
  if 0 < missing then
    ((bfillAll (ffillAll rows)).filter pricesComplete, missing)
  else
    (rows, 0)

/-- The per-row effect of `_validate_price_relationships`: rows selected
by `self.df[high_c] < self.df[low_c]` (a NaN comparison is false, so only
rows with both fields present qualify) get `High` and `Low` swapped. -/
def swapHL (r : Row) : Row :=
  match r.High, r.Low with
  | some h, some l =>
    if h < l then { r with High := some l, Low := some h } else r
  | _, _ => r

/-- `GoldDataCleaner._validate_price_relationships` over the frame. -/
def validate_price_relationships (rows : List Row) : List Row :=
  rows.map swapHL

/-- pandas `Series.quantile(p)` with the default linear interpolation,
over the non-null values: with sorted values `s` of length `n`, the rank
is `h = p * (n - 1)`; the result interpolates between the floor and the
next value. Empty input is mapped to `0` (pandas returns NaN there, and
every NaN comparison below is false, so no row is flagged either way). -/
def quantile (xs : List ℚ) (p : ℚ) : ℚ :=
  let s := List.insertionSort (· ≤ ·) xs
  if s.isEmpty then 0
  else
    let n := s.length
    let h : ℚ := p * ((n : ℚ) - 1)
    let f : ℕ := ⌊h⌋.toNat
    let g : ℚ := h - (f : ℚ)
    let a := s.getD f 0
    let b := s.getD (f + 1) a
    a + g * (b - a)

/-- The close values the detector works on: `self.df[close_col]` with
nulls skipped, as pandas `quantile` does. -/
def closeValues (rows : List Row) : List ℚ :=
  rows.filterMap (·.Close)

/-- `q1 = self.df[close_col].quantile(0.25)`. -/
def q1 (rows : List Row) : ℚ := quantile (closeValues rows) (1/4)

/-- `q3 = self.df[close_col].quantile(0.75)`. -/
def q3 (rows : List Row) : ℚ := quantile (closeValues rows) (3/4)

/-- Whether `_detect_outliers` counts this row: its close is non-null and
falls strictly outside `[q1 - 3*iqr, q3 + 3*iqr]`. -/
def isOutlier (rows : List Row) (r : Row) : Bool :=
  let iqr := q3 rows - q1 rows
  let lower := q1 rows - 3 * iqr
  let upper := q3 rows + 3 * iqr
  match r.Close with
  | some c => decide (c < lower) || decide (upper < c)
  | none => false

/-- `GoldDataCleaner._detect_outliers`: the frame is untouched; only the
count of flagged rows is produced (stored as `outliers_detected`). -/
def detect_outliers (rows : List Row) : List Row × Nat :=
  (rows, (rows.filter (isOutlier rows)).length)

/-- The `cleaning_report` dictionary of `GoldDataCleaner`. -/
structure CleaningReport where
  original_rows : Nat
  duplicates_removed : Nat
  missing_values_handled : Nat
  outliers_detected : Nat
  final_rows : Nat
deriving DecidableEq, Repr

/-- `GoldDataCleaner.clean` from the duplicate stage on (the preceding
`_convert_data_types` only retypes columns and never adds or removes a
row, so `original_rows = len(df)` carries over unchanged): duplicates,
missing values, high/low validation, outlier counting, final sort, then
`final_rows` is recorded. -/
def clean (df : List Row) : List Row × CleaningReport :=
  let step1 := handle_duplicates df
  let step2 := handle_missing_values step1.1
  let step3 := validate_price_relationships step2.1
  let step4 := detect_outliers step3
  let out := sort_data step4.1
  (out,
    { original_rows := df.length
      duplicates_removed := step1.2
      missing_values_handled := step2.2
      outliers_detected := step4.2
      final_rows := out.length })

/-- The dataset shape `validate_data_task` inspects after `read_csv`:
its column list and its row count. -/
structure Dataset where
  columns : List String
  nrows : Nat
deriving DecidableEq, Repr

/-- The two fatal validation errors of `validate_data_task`. -/
inductive ValidationError where
  | emptyDataset : ValidationError
  | schemaError (missing : List String) : ValidationError
deriving DecidableEq, Repr

/-- `required_columns` of `validate_data_task`. -/
def required_columns : List String :=
  ["Date", "Open", "High", "Low", "Close", "Volume"]

/-- The required columns absent from the dataset, in `required_columns`
order — the list comprehension of `validate_data_task`. -/
def missingColumns (d : Dataset) : List String :=
  required_columns.filter (fun c => decide (c ∉ d.columns))

/-- `validate_data_task`: `len(df) == 0` is checked first and raises
"Empty dataset"; then any missing required columns raise
"Missing columns"; otherwise validation passes. -/
def validate_data (d : Dataset) : Except ValidationError Unit :=
  if d.nrows = 0 then
    Except.error ValidationError.emptyDataset
  else if missingColumns d ≠ [] then
    Except.error (ValidationError.schemaError (missingColumns d))
  else
    Except.ok ()

/-! ### Basic facts about `dedupKeepLast` -/

/-- The deduplicated frame is a sublist of the input (rows keep their
relative order; nothing new is introduced). -/
theorem dedupKeepLast_sublist (l : List Row) : (dedupKeepLast l).Sublist l := by
  induction l with
  | nil => simp [dedupKeepLast]
  | cons x xs ih =>
    rw [dedupKeepLast]
    split
    · exact ih.trans (List.sublist_cons_self x xs)
    · exact ih.cons₂ x

/-- After `drop_duplicates(keep='last')` no two surviving rows share a
date. -/
theorem dedupKeepLast_dates_pairwise (l : List Row) :
    (dedupKeepLast l).Pairwise (fun a b => a.Date ≠ b.Date) := by
  induction l with
  | nil => simp [dedupKeepLast]
  | cons x xs ih =>
    rw [dedupKeepLast]
    split
    · exact ih
    · rename_i hnone
      refine List.Pairwise.cons ?_ ih
      intro y hy hxy
      have hy' : y ∈ xs := (dedupKeepLast_sublist xs).mem hy
      exact hnone (List.any_eq_true.2 ⟨y, hy', by simp [hxy]⟩)

/-- The last row of `l` carrying date `d` — the row that
`drop_duplicates(subset=[Date], keep='last')` retains for `d`. -/
def lastWithDate (d : Option ℤ) (l : List Row) : Option Row :=
  (l.filter (fun r => decide (r.Date = d))).getLast?

theorem getLast?_cons_of_ne_nil {a : Row} {l : List Row} (h : l ≠ []) :
    (a :: l).getLast? = l.getLast? := by
  cases l with
  | nil => exact absurd rfl h
  | cons b t => simp [List.getLast?_cons_cons]

/-- `dedupKeepLast` keeps, for each date, exactly the last input row with
that date: filtering the output by a date yields that single row (or
nothing when the date never occurs). -/
theorem dedupKeepLast_filter_eq (d : Option ℤ) (l : List Row) :
    (dedupKeepLast l).filter (fun r => decide (r.Date = d)) =
      (lastWithDate d l).toList := by
  induction l with
  | nil => simp [dedupKeepLast, lastWithDate]
  | cons x xs ih =>
    rw [dedupKeepLast]
    split
    · rename_i hdup
      obtain ⟨y, hymem, hy⟩ := List.any_eq_true.1 hdup
      have hydate : y.Date = x.Date := of_decide_eq_true hy
      by_cases hxd : x.Date = d
      · have hfilter_ne : xs.filter (fun r => decide (r.Date = d)) ≠ [] := by
          intro hnil
          have : y ∈ xs.filter (fun r => decide (r.Date = d)) :=
            List.mem_filter.2 ⟨hymem, by simp [hydate, hxd]⟩
          simp [hnil] at this
        rw [ih, lastWithDate, lastWithDate, List.filter_cons_of_pos (by simp [hxd]),
          getLast?_cons_of_ne_nil hfilter_ne]
      · rw [ih, lastWithDate, lastWithDate, List.filter_cons_of_neg (by simp [hxd])]
    · rename_i hnone
      by_cases hxd : x.Date = d
      · have hfilter_nil : xs.filter (fun r => decide (r.Date = d)) = [] := by
          rw [List.filter_eq_nil_iff]
          intro y hy hyd
          exact hnone (List.any_eq_true.2
            ⟨y, hy, by simp [of_decide_eq_true hyd, hxd]⟩)
        have hfilter_nil' :
            (dedupKeepLast xs).filter (fun r => decide (r.Date = d)) = [] := by
          rw [ih, lastWithDate, hfilter_nil]
          rfl
        rw [List.filter_cons_of_pos (by simp [hxd]), hfilter_nil', lastWithDate,
          List.filter_cons_of_pos (by simp [hxd]), hfilter_nil]
        rfl
      · rw [List.filter_cons_of_neg (by simp [hxd]), ih, lastWithDate, lastWithDate,
          List.filter_cons_of_neg (by simp [hxd])]

/-- Membership in the deduplicated frame: a row survives exactly when it
is the last input row with its date. -/
theorem mem_dedupKeepLast {x : Row} {l : List Row} :
    x ∈ dedupKeepLast l ↔ lastWithDate x.Date l = some x := by
  constructor
  · intro hx
    have : x ∈ (dedupKeepLast l).filter (fun r => decide (r.Date = x.Date)) :=
      List.mem_filter.2 ⟨hx, by simp⟩
    rw [dedupKeepLast_filter_eq] at this
    cases h : lastWithDate x.Date l with
    | none => simp [h] at this
    | some y => simp [h] at this; simp [this]
  · intro h
    have : x ∈ (dedupKeepLast l).filter (fun r => decide (r.Date = x.Date)) := by
      rw [dedupKeepLast_filter_eq, h]
      simp
    exact (List.mem_filter.1 this).1

/-! ### C3 — DuplicateResolver -/

/-- C3: `_handle_duplicates` keeps exactly the last row for each date
(filtering its output by any date yields precisely the last input row
with that date), its output has no two rows sharing a date — the set of
dates is as large as the row list — and the reported removal count is
the input length minus the output length. -/
theorem handle_duplicates_spec (rows : List Row) :
    (∀ d : Option ℤ,
      (handle_duplicates rows).1.filter (fun r => decide (r.Date = d)) =
        ((rows.filter (fun r => decide (r.Date = d))).getLast?).toList) ∧
    ((handle_duplicates rows).1.map (·.Date)).Nodup ∧
    ((handle_duplicates rows).1.map (·.Date)).toFinset.card =
      (handle_duplicates rows).1.length ∧
    (handle_duplicates rows).2 =
      rows.length - (handle_duplicates rows).1.length := by
  have hnodup : ((handle_duplicates rows).1.map (·.Date)).Nodup := by
    have hp := dedupKeepLast_dates_pairwise rows
    exact List.pairwise_map.2 hp
  refine ⟨?_, hnodup, ?_, rfl⟩
  · intro d
    exact dedupKeepLast_filter_eq d rows
  · rw [List.toFinset_card_of_nodup hnodup, List.length_map]

/-! ### C2 — PriceRelationshipValidator -/

theorem swapHL_of_lt {r : Row} {h l : ℚ} (hH : r.High = some h)
    (hL : r.Low = some l) (hlt : h < l) :
    swapHL r = { r with High := some l, Low := some h } := by
  simp [swapHL, hH, hL, hlt]

theorem swapHL_of_not_lt {r : Row} {h l : ℚ} (hH : r.High = some h)
    (hL : r.Low = some l) (hge : ¬ h < l) : swapHL r = r := by
  simp [swapHL, hH, hL, hge]

theorem swapHL_high_none {r : Row} (hH : r.High = none) : swapHL r = r := by
  rcases hL : r.Low with _ | l <;> simp [swapHL, hH, hL]

theorem swapHL_low_none {r : Row} (hL : r.Low = none) : swapHL r = r := by
  rcases hH : r.High with _ | h <;> simp [swapHL, hH, hL]

/-- After the swap, any row with both fields present satisfies
`low ≤ high`. -/
theorem swapHL_inv (r : Row) {h l : ℚ} (hh : (swapHL r).High = some h)
    (hl : (swapHL r).Low = some l) : l ≤ h := by
  rcases hH : r.High with _ | h₀
  · rw [swapHL_high_none hH, hH] at hh
    exact absurd hh (by simp)
  rcases hL : r.Low with _ | l₀
  · rw [swapHL_low_none hL, hL] at hl
    exact absurd hl (by simp)
  by_cases hlt : h₀ < l₀
  · rw [swapHL_of_lt hH hL hlt] at hh hl
    simp at hh hl
    subst hh; subst hl
    exact le_of_lt hlt
  · rw [swapHL_of_not_lt hH hL hlt, hH] at hh
    rw [swapHL_of_not_lt hH hL hlt, hL] at hl
    simp at hh hl
    subst hh; subst hl
    exact le_of_not_lt hlt

/-- C2: `_validate_price_relationships` keeps every row (same length); a
row whose high is less than its low has the two values swapped in place,
any other row is left unchanged, and afterwards every row with both
fields present satisfies `high ≥ low`. -/
theorem validate_price_relationships_spec (rows : List Row) :
    (validate_price_relationships rows).length = rows.length ∧
    (∀ (i : Nat) (r : Row), rows[i]? = some r →
      ((∃ h l, r.High = some h ∧ r.Low = some l ∧ h < l) →
        (validate_price_relationships rows)[i]? =
          some { r with High := r.Low, Low := r.High }) ∧
      ((¬ ∃ h l, r.High = some h ∧ r.Low = some l ∧ h < l) →
        (validate_price_relationships rows)[i]? = some r)) ∧
    (∀ r ∈ validate_price_relationships rows,
      ∀ h l, r.High = some h → r.Low = some l → l ≤ h) := by
  refine ⟨List.length_map rows swapHL, ?_, ?_⟩
  · intro i r hi
    have hmap : (validate_price_relationships rows)[i]? = some (swapHL r) := by
      rw [validate_price_relationships, List.getElem?_map, hi]
      rfl
    constructor
    · rintro ⟨h, l, hh, hl, hlt⟩
      rw [hmap, swapHL_of_lt hh hl hlt, hh, hl]
    · intro hnot
      rw [hmap]
      rcases hH : r.High with _ | h
      · rw [swapHL_high_none hH]
      rcases hL : r.Low with _ | l
      · rw [swapHL_low_none hL]
      rw [swapHL_of_not_lt hH hL (fun hlt => hnot ⟨h, l, hH, hL, hlt⟩)]
  · intro r hr h l hh hl
    obtain ⟨r₀, _, hr₀⟩ := List.mem_map.1 hr
    subst hr₀
    exact swapHL_inv r₀ hh hl

/-- Witness for C2 at the spec's swap example: a bar with `high = 90`,
`low = 100` comes out with `high = 100`, `low = 90`, while a well-formed
bar is untouched. -/
theorem validate_price_relationships_spec_witness :
    (validate_price_relationships
        [⟨some 1, some 95, some 90, some 100, some 95, 0⟩,
         ⟨some 2, some 95, some 110, some 92, some 95, 7⟩])[0]? =
      some ⟨some 1, some 95, some 100, some 90, some 95, 0⟩ ∧
    (validate_price_relationships
        [⟨some 1, some 95, some 90, some 100, some 95, 0⟩,
         ⟨some 2, some 95, some 110, some 92, some 95, 7⟩])[1]? =
      some ⟨some 2, some 95, some 110, some 92, some 95, 7⟩ := by
  have h := validate_price_relationships_spec
    [⟨some 1, some 95, some 90, some 100, some 95, 0⟩,
     ⟨some 2, some 95, some 110, some 92, some 95, 7⟩]
  constructor
  · exact (h.2.1 0 ⟨some 1, some 95, some 90, some 100, some 95, 0⟩ rfl).1
      ⟨90, 100, rfl, rfl, by norm_num⟩
  · refine (h.2.1 1 ⟨some 2, some 95, some 110, some 92, some 95, 7⟩ rfl).2 ?_
    rintro ⟨x, y, hx, hy, hlt⟩
    simp at hx hy
    subst hx; subst hy
    norm_num at hlt

/-! ### C4 — MissingValueImputer -/

/-- A column with no null cell is untouched by its forward fill. -/
theorem ffillCol_of_isSome (get : Row → Option ℚ) (set : Row → Option ℚ → Row)
    (c : Option ℚ) (rows : List Row) (h : ∀ r ∈ rows, (get r).isSome) :
    ffillCol get set c rows = rows := by
  induction rows generalizing c with
  | nil => rfl
  | cons r rs ih =>
    have hr : (get r).isSome := h r (List.mem_cons_self r rs)
    obtain ⟨v, hv⟩ := Option.isSome_iff_exists.1 hr
    rw [ffillCol, hv]
    exact congrArg (r :: ·) (ih _ (fun x hx => h x (List.mem_cons_of_mem r hx)))

theorem natSum_zero_mem {l : List Nat} (h : l.sum = 0) : ∀ x ∈ l, x = 0 := by
  induction l with
  | nil => simp
  | cons a t ih =>
    rw [List.sum_cons] at h
    intro x hx
    rcases List.mem_cons.1 hx with hx | hx
    · omega
    · exact ih (by omega) x hx

/-- If a row sits in a frame with no missing price cell, each of its
price fields is present. -/
theorem countMissing_eq_zero {rows : List Row} (h : countMissing rows = 0) :
    ∀ r ∈ rows, r.Open.isSome ∧ r.High.isSome ∧ r.Low.isSome ∧
      r.Close.isSome := by
  intro r hr
  have hzero : rowMissing r = 0 :=
    natSum_zero_mem h _ (List.mem_map_of_mem rowMissing hr)
  rw [rowMissing] at hzero
  rcases hO : r.Open with _ | _ <;> rcases hH : r.High with _ | _ <;>
    rcases hL : r.Low with _ | _ <;> rcases hC : r.Close with _ | _ <;>
      simp [hO, hH, hL, hC] at hzero ⊢

/-- A column with no null cell is untouched by its backward fill. -/
theorem bfillCol_of_isSome (get : Row → Option ℚ) (set : Row → Option ℚ → Row)
    (rows : List Row) (h : ∀ r ∈ rows, (get r).isSome) :
    bfillCol get set rows = rows := by
  rw [bfillCol, ffillCol_of_isSome _ _ _ _
    (fun r hr => h r (List.mem_reverse.1 hr)), List.reverse_reverse]

/-- With no missing price cell the whole ffill/bfill/dropna chain is the
identity on the frame. -/
theorem fill_chain_of_no_missing {rows : List Row} (h : countMissing rows = 0) :
    (bfillAll (ffillAll rows)).filter pricesComplete = rows := by
  have hall := countMissing_eq_zero h
  have hOpen : ffillCol (·.Open) setOpen none rows = rows :=
    ffillCol_of_isSome _ _ _ _ (fun r hr => (hall r hr).1)
  have hHigh : ffillCol (·.High) setHigh none rows = rows :=
    ffillCol_of_isSome _ _ _ _ (fun r hr => (hall r hr).2.1)
  have hLow : ffillCol (·.Low) setLow none rows = rows :=
    ffillCol_of_isSome _ _ _ _ (fun r hr => (hall r hr).2.2.1)
  have hClose : ffillCol (·.Close) setClose none rows = rows :=
    ffillCol_of_isSome _ _ _ _ (fun r hr => (hall r hr).2.2.2)
  have hff : ffillAll rows = rows := by
    rw [ffillAll, hOpen, hHigh, hLow, hClose]
  have hb1 : bfillCol (·.Open) setOpen rows = rows :=
    bfillCol_of_isSome _ _ _ (fun r hr => (hall r hr).1)
  have hb2 : bfillCol (·.High) setHigh rows = rows :=
    bfillCol_of_isSome _ _ _ (fun r hr => (hall r hr).2.1)
  have hb3 : bfillCol (·.Low) setLow rows = rows :=
    bfillCol_of_isSome _ _ _ (fun r hr => (hall r hr).2.2.1)
  have hb4 : bfillCol (·.Close) setClose rows = rows :=
    bfillCol_of_isSome _ _ _ (fun r hr => (hall r hr).2.2.2)
  have hbf : bfillAll rows = rows := by
    rw [bfillAll, hb1, hb2, hb3, hb4]
  rw [hff, hbf]
  refine List.filter_eq_self.2 (fun r hr => ?_)
  obtain ⟨h1, h2, h3, h4⟩ := hall r hr
  simp [pricesComplete, h1, h2, h3, h4]

/-- The spec's imputation example: dates 1..4 with
`Open = [100, null, null, 130]` and complete remaining fields. -/
def imputeExample : List Row :=
  [⟨some 1, some 100, some 1, some 1, some 1, 0⟩,
   ⟨some 2, none, some 1, some 1, some 1, 0⟩,
   ⟨some 3, none, some 1, some 1, some 1, 0⟩,
   ⟨some 4, some 130, some 1, some 1, some 1, 0⟩]

/-- C4: `_handle_missing_values` reports exactly the number of null
price cells found before imputation; its output frame is the
forward-fill, then backward-fill, then drop-of-still-incomplete rows of
the input (in the frame's date order); on the spec's example the `Open`
column `[100, null, null, 130]` becomes `[100, 100, 100, 130]` with a
count of 2. -/
theorem handle_missing_values_spec (rows : List Row) :
    (handle_missing_values rows).2 = countMissing rows ∧
    (handle_missing_values rows).1 =
      (bfillAll (ffillAll rows)).filter pricesComplete ∧
    (handle_missing_values imputeExample).1.map (·.Open) =
      [some 100, some 100, some 100, some 130] ∧
    (handle_missing_values imputeExample).2 = 2 := by
  have hdef : handle_missing_values rows =
      if 0 < countMissing rows
      then ((bfillAll (ffillAll rows)).filter pricesComplete, countMissing rows)
      else (rows, 0) := rfl
  refine ⟨?_, ?_, by decide, by decide⟩
  · rw [hdef]
    by_cases h : 0 < countMissing rows
    · rw [if_pos h]
    · rw [if_neg h]
      show 0 = countMissing rows
      omega
  · rw [hdef]
    by_cases h : 0 < countMissing rows
    · rw [if_pos h]
    · rw [if_neg h]
      show rows = (bfillAll (ffillAll rows)).filter pricesComplete
      exact (fill_chain_of_no_missing (by omega)).symm

/-! ### C5 — OutlierDetector -/

/-- The spec's concrete outlier example: six bars whose closes are
`[10, 10, 10, 10, 10, 100]`. -/
def outlierExample : List Row :=
  [⟨some 1, some 10, some 10, some 10, some 10, 0⟩,
   ⟨some 2, some 10, some 10, some 10, some 10, 0⟩,
   ⟨some 3, some 10, some 10, some 10, some 10, 0⟩,
   ⟨some 4, some 10, some 10, some 10, some 10, 0⟩,
   ⟨some 5, some 10, some 10, some 10, some 10, 0⟩,
   ⟨some 6, some 100, some 100, some 100, some 100, 0⟩]

/-- C5: `_detect_outliers` leaves the frame unchanged and counts the rows
whose close lies strictly outside `[Q1 - 3*IQR, Q3 + 3*IQR]` over the
close column; when `IQR = 0` a row whose close equals `Q1` is never
flagged; and on closes `[10,10,10,10,10,100]` the fence is `[10, 10]`
(`Q1 = Q3 = 10`) and exactly one row is flagged. -/
theorem detect_outliers_spec (rows : List Row) :
    (detect_outliers rows).1 = rows ∧
    (detect_outliers rows).2 = (rows.filter (isOutlier rows)).length ∧
    (q3 rows - q1 rows = 0 →
      ∀ r ∈ rows, r.Close = some (q1 rows) → isOutlier rows r = false) ∧
    (q1 outlierExample = 10 ∧ q3 outlierExample = 10 ∧
      (detect_outliers outlierExample).2 = 1) := by
  have hcv : closeValues outlierExample = [10, 10, 10, 10, 10, 100] := rfl
  have hq1 : q1 outlierExample = 10 := by
    rw [q1, hcv]
    norm_num [quantile]
  have hq3 : q3 outlierExample = 10 := by
    rw [q3, hcv]
    norm_num [quantile]
    norm_num [show Int.toNat 3 = 3 from rfl]
  have h10 : ∀ r : Row, r.Close = some 10 →
      isOutlier outlierExample r = false := by
    intro r hc
    simp only [isOutlier, hq1, hq3, hc]
    norm_num
  have h100 : ∀ r : Row, r.Close = some 100 →
      isOutlier outlierExample r = true := by
    intro r hc
    simp only [isOutlier, hq1, hq3, hc]
    norm_num
  have e1 : isOutlier outlierExample
      ⟨some 1, some 10, some 10, some 10, some 10, 0⟩ = false := h10 _ rfl
  have e2 : isOutlier outlierExample
      ⟨some 2, some 10, some 10, some 10, some 10, 0⟩ = false := h10 _ rfl
  have e3 : isOutlier outlierExample
      ⟨some 3, some 10, some 10, some 10, some 10, 0⟩ = false := h10 _ rfl
  have e4 : isOutlier outlierExample
      ⟨some 4, some 10, some 10, some 10, some 10, 0⟩ = false := h10 _ rfl
  have e5 : isOutlier outlierExample
      ⟨some 5, some 10, some 10, some 10, some 10, 0⟩ = false := h10 _ rfl
  have e6 : isOutlier outlierExample
      ⟨some 6, some 100, some 100, some 100, some 100, 0⟩ = true := h100 _ rfl
  have hcount : (detect_outliers outlierExample).2 = 1 := by
    show (List.filter (isOutlier outlierExample)
      [⟨some 1, some 10, some 10, some 10, some 10, 0⟩,
       ⟨some 2, some 10, some 10, some 10, some 10, 0⟩,
       ⟨some 3, some 10, some 10, some 10, some 10, 0⟩,
       ⟨some 4, some 10, some 10, some 10, some 10, 0⟩,
       ⟨some 5, some 10, some 10, some 10, some 10, 0⟩,
       ⟨some 6, some 100, some 100, some 100, some 100, 0⟩]).length = 1
    simp only [List.filter_cons, e1, e2, e3, e4, e5, e6]
    rfl
  refine ⟨rfl, rfl, ?_, hq1, hq3, hcount⟩
  intro hiqr r _ hc
  have hq : q3 rows = q1 rows := by linarith
  simp only [isOutlier, hc, hq, hiqr]
  norm_num

/-- Witness for C5: in the example `IQR = 0`, and the first bar (close
`10 = Q1`) is indeed not flagged. -/
theorem detect_outliers_spec_witness :
    isOutlier outlierExample ⟨some 1, some 10, some 10, some 10, some 10, 0⟩ =
      false := by
  obtain ⟨-, -, hdeg, hq1, hq3, -⟩ := detect_outliers_spec outlierExample
  refine hdeg (by rw [hq1, hq3]; norm_num)
    ⟨some 1, some 10, some 10, some 10, some 10, 0⟩
    (List.mem_cons_self _ _) ?_
  rw [hq1]

/-! ### C6 and C7 — Sorter/Finalizer -/

/-- Strict chronological order between two rows with parsed dates. -/
def dateLtStrict (a b : Row) : Prop :=
  match a.Date, b.Date with
  | some x, some y => x < y
  | _, _ => False

instance : DecidableRel dateLtStrict := fun a b => by
  unfold dateLtStrict
  rcases a.Date with _ | x <;> rcases b.Date with _ | y <;> exact inferInstance

/-- C6: on a frame whose dates are parsed and pairwise distinct (what the
upstream dedup stage guarantees), `_sort_data` emits the rows in strictly
increasing date order; the output is a permutation of the input, carrying
the dense zero-based index as its list positions. -/
theorem sort_data_spec (rows : List Row)
    (hnodup : (rows.map (·.Date)).Nodup)
    (hsome : ∀ r ∈ rows, r.Date.isSome) :
    (sort_data rows).Pairwise dateLtStrict ∧ (sort_data rows).Perm rows := by
  have hperm : (sort_data rows).Perm rows := List.perm_insertionSort dateLe rows
  refine ⟨?_, hperm⟩
  have hsorted : (sort_data rows).Pairwise dateLe :=
    List.sorted_insertionSort dateLe rows
  have hne_rows : rows.Pairwise (fun a b => a.Date ≠ b.Date) :=
    List.pairwise_map.1 hnodup
  have hne : (sort_data rows).Pairwise (fun a b => a.Date ≠ b.Date) :=
    (hperm.pairwise_iff (fun h => h.symm)).2 hne_rows
  have hand := hsorted.and hne
  refine hand.imp_of_mem ?_
  intro a b ha hb hab
  obtain ⟨hle, hne'⟩ := hab
  obtain ⟨x, hx⟩ := Option.isSome_iff_exists.1 (hsome a (hperm.mem_iff.1 ha))
  obtain ⟨y, hy⟩ := Option.isSome_iff_exists.1 (hsome b (hperm.mem_iff.1 hb))
  rw [dateLe, hx, hy] at hle
  rw [dateLtStrict, hx, hy]
  rw [hx, hy] at hne'
  exact lt_of_le_of_ne hle (fun hxy => hne' (by rw [hxy]))

/-- Witness for C6 on a concrete unsorted two-row frame. -/
theorem sort_data_spec_witness :
    (sort_data [⟨some 5, some 2, some 3, some 1, some 2, 4⟩,
                ⟨some 3, some 7, some 8, some 6, some 7, 9⟩]).Pairwise
        dateLtStrict ∧
    (sort_data [⟨some 5, some 2, some 3, some 1, some 2, 4⟩,
                ⟨some 3, some 7, some 8, some 6, some 7, 9⟩]).Perm
      [⟨some 5, some 2, some 3, some 1, some 2, 4⟩,
       ⟨some 3, some 7, some 8, some 6, some 7, 9⟩] :=
  sort_data_spec _ (by decide) (by decide)

/-- C7: `_sort_data` is idempotent — finalizing an already finalized
frame is a no-op on content. -/
theorem sort_data_idempotent (rows : List Row) :
    sort_data (sort_data rows) = sort_data rows :=
  List.Sorted.insertionSort_eq (List.sorted_insertionSort dateLe rows)

/-! ### C8 — RawMerger emptiness check -/

/-- Counterexample to C8 as stated: with a non-empty persisted series and
an empty incoming batch, `scrape_gold_prices` does not succeed — the
`df_new.empty` check fires before the existing file is consulted. -/
theorem scrape_gold_prices_claim_counterexample :
    scrape_gold_prices (some [⟨some 1, some 1, some 1, some 1, some 1, 0⟩])
      [] = Except.error "No data retrieved from yfinance" := rfl

/-- C8 amended: the scraper fails exactly when the incoming batch is
empty — regardless of the existing series — and succeeds otherwise,
merging into the existing series when one is present. -/
theorem scrape_gold_prices_spec (existing : Option (List Row))
    (incoming : List Row) :
    (incoming = [] →
      scrape_gold_prices existing incoming =
        Except.error "No data retrieved from yfinance") ∧
    (incoming ≠ [] →
      scrape_gold_prices existing incoming =
        match existing with
        | some old => Except.ok (merge old incoming)
        | none => Except.ok (sort_data incoming)) := by
  constructor
  · intro h
    subst h
    rfl
  · intro h
    unfold scrape_gold_prices
    rw [if_neg (by simpa using h)]
    cases existing <;> rfl

/-- Witness for the amended C8: a singleton batch merges fine into a
singleton series, and an empty batch against no existing file errors. -/
theorem scrape_gold_prices_spec_witness :
    scrape_gold_prices (some [⟨some 1, some 1, some 1, some 1, some 1, 0⟩])
        [⟨some 2, some 2, some 2, some 2, some 2, 0⟩] =
      Except.ok (merge [⟨some 1, some 1, some 1, some 1, some 1, 0⟩]
        [⟨some 2, some 2, some 2, some 2, some 2, 0⟩]) ∧
    scrape_gold_prices (none : Option (List Row)) ([] : List Row) =
      Except.error "No data retrieved from yfinance" :=
  ⟨(scrape_gold_prices_spec _ _).2 (by simp),
   (scrape_gold_prices_spec none []).1 rfl⟩

/-! ### C9 — validation of the cleaned dataset -/

/-- Counterexample to C9 as stated: a dataset with zero rows that is also
missing the `Volume` column fails with the empty-dataset error, not with
`SchemaError{missing: [Volume]}` — the row-count check runs first. -/
theorem validate_data_claim_counterexample :
    validate_data ⟨["Date", "Open", "High", "Low", "Close"], 0⟩ =
      Except.error ValidationError.emptyDataset ∧
    validate_data ⟨["Date", "Open", "High", "Low", "Close"], 0⟩ ≠
      Except.error (ValidationError.schemaError ["Volume"]) := by
  constructor
  · rfl
  · intro h
    rw [show validate_data ⟨["Date", "Open", "High", "Low", "Close"], 0⟩ =
      Except.error ValidationError.emptyDataset from rfl] at h
    simp at h

/-- C9 amended: the zero-row check takes precedence — a dataset with zero
rows fails with `EmptyDatasetError`; a non-empty dataset missing required
columns fails with `SchemaError` listing them (a non-empty dataset
missing only `Volume` fails with `SchemaError{missing: [Volume]}`); a
non-empty dataset with all required columns passes. -/
theorem validate_data_spec (d : Dataset) :
    (d.nrows = 0 →
      validate_data d = Except.error ValidationError.emptyDataset) ∧
    (d.nrows ≠ 0 → missingColumns d ≠ [] →
      validate_data d =
        Except.error (ValidationError.schemaError (missingColumns d))) ∧
    (d.nrows ≠ 0 → missingColumns d = [] →
      validate_data d = Except.ok ()) ∧
    (d.nrows ≠ 0 → d.columns = ["Date", "Open", "High", "Low", "Close"] →
      validate_data d =
        Except.error (ValidationError.schemaError ["Volume"])) := by
  refine ⟨?_, ?_, ?_, ?_⟩
  · intro h
    rw [validate_data, if_pos h]
  · intro h hm
    rw [validate_data, if_neg h, if_pos hm]
  · intro h hm
    rw [validate_data, if_neg h, if_neg (by simp [hm])]
  · intro h hc
    have hm : missingColumns d = ["Volume"] := by
      rw [missingColumns, hc]
      decide
    rw [validate_data, if_neg h, if_pos (by simp [hm]), hm]

/-- Witness for the amended C9 at three concrete datasets: empty, missing
`Volume` with rows, and fully well-formed. -/
theorem validate_data_spec_witness :
    validate_data ⟨["Date", "Open", "High", "Low", "Close", "Volume"], 0⟩ =
      Except.error ValidationError.emptyDataset ∧
    validate_data ⟨["Date", "Open", "High", "Low", "Close"], 7⟩ =
      Except.error (ValidationError.schemaError ["Volume"]) ∧
    validate_data ⟨["Date", "Open", "High", "Low", "Close", "Volume"], 7⟩ =
      Except.ok () :=
  ⟨(validate_data_spec _).1 rfl,
   (validate_data_spec _).2.2.2 (by simp) rfl,
   (validate_data_spec _).2.2.1 (by simp) (by decide)⟩

/-! ### C1 — RawMerger upsert idempotence -/

/-- Among rows with pairwise-distinct dates, at most one row matches any
given date. -/
theorem filter_date_length_le_one {l : List Row}
    (hp : l.Pairwise (fun a b => a.Date ≠ b.Date)) (d : Option ℤ) :
    (l.filter (fun r => decide (r.Date = d))).length ≤ 1 := by
  induction l with
  | nil => simp
  | cons x xs ih =>
    have hx := List.pairwise_cons.1 hp
    by_cases hxd : x.Date = d
    · rw [List.filter_cons_of_pos (by simp [hxd])]
      have hnil : xs.filter (fun r => decide (r.Date = d)) = [] := by
        rw [List.filter_eq_nil_iff]
        intro y hy
        simp only [decide_eq_true_eq]
        intro hyd
        exact hx.1 y hy (hxd.trans hyd.symm)
      rw [hnil]
      simp
    · rw [List.filter_cons_of_neg (by simp [hxd])]
      exact ih hx.2

/-- Permuted lists of length at most one are equal. -/
theorem perm_eq_of_length_le_one {l₁ l₂ : List Row} (h : l₁.Perm l₂)
    (hl : l₁.length ≤ 1) : l₁ = l₂ := by
  cases l₁ with
  | nil => exact (h.symm.eq_nil).symm
  | cons a t =>
    cases t with
    | nil => exact (List.perm_singleton.1 h.symm).symm
    | cons b u => simp at hl

theorem getLast?_toList (o : Option Row) : o.toList.getLast? = o := by
  cases o <;> rfl

/-- Deduplication does not change the last row seen for any date. -/
theorem lastWithDate_dedup (d : Option ℤ) (l : List Row) :
    lastWithDate d (dedupKeepLast l) = lastWithDate d l := by
  rw [lastWithDate, dedupKeepLast_filter_eq, getLast?_toList]

/-- On a frame with pairwise-distinct dates, sorting does not change the
last row seen for any date. -/
theorem lastWithDate_sort {l : List Row}
    (hp : l.Pairwise (fun a b => a.Date ≠ b.Date)) (d : Option ℤ) :
    lastWithDate d (sort_data l) = lastWithDate d l := by
  have hperm : ((sort_data l).filter (fun r => decide (r.Date = d))).Perm
      (l.filter (fun r => decide (r.Date = d))) :=
    (List.perm_insertionSort dateLe l).filter _
  have heq := perm_eq_of_length_le_one hperm
    (by rw [hperm.length_eq]; exact filter_date_length_le_one hp d)
  rw [lastWithDate, heq, lastWithDate]

/-- The last row for a date in a concatenation comes from the right part
when the date occurs there, from the left part otherwise. -/
theorem lastWithDate_append (d : Option ℤ) (l₁ l₂ : List Row) :
    lastWithDate d (l₁ ++ l₂) =
      if l₂.filter (fun r => decide (r.Date = d)) = []
      then lastWithDate d l₁ else lastWithDate d l₂ := by
  rw [lastWithDate, List.filter_append]
  by_cases h : l₂.filter (fun r => decide (r.Date = d)) = []
  · rw [if_pos h, h, List.append_nil, lastWithDate]
  · rw [if_neg h, List.getLast?_append_of_ne_nil _ h, lastWithDate]

/-- The merged series answers every date query exactly as the raw
concatenation does: merging only removes overridden occurrences. -/
theorem lastWithDate_merge (d : Option ℤ) (S X : List Row) :
    lastWithDate d (merge S X) = lastWithDate d (S ++ X) := by
  rw [merge]
  rw [lastWithDate_sort (dedupKeepLast_dates_pairwise _), lastWithDate_dedup]

/-- Membership in a merged series: a row is present exactly when it is
the last occurrence of its date in the concatenation. -/
theorem mem_merge {x : Row} {S X : List Row} :
    x ∈ merge S X ↔ lastWithDate x.Date (S ++ X) = some x := by
  rw [merge, sort_data, (List.perm_insertionSort dateLe _).mem_iff]
  exact mem_dedupKeepLast

/-- A merged series has pairwise-distinct dates. -/
theorem merge_dates_pairwise (S X : List Row) :
    (merge S X).Pairwise (fun a b => a.Date ≠ b.Date) := by
  rw [merge, sort_data]
  exact ((List.perm_insertionSort dateLe _).pairwise_iff
    (fun h => h.symm)).2 (dedupKeepLast_dates_pairwise (S ++ X))

/-- A merged series is sorted by the date comparison. -/
theorem merge_sorted (S X : List Row) : (merge S X).Pairwise dateLe :=
  List.sorted_insertionSort dateLe (dedupKeepLast (S ++ X))

/-- C1: the RawMerger upsert is idempotent over a batch — re-merging the
same batch into an already merged series changes nothing:
`merge (merge S X) X = merge S X` for every persisted series `S` and
batch `X` (concatenate, dedup by date keeping the last occurrence, sort
chronologically). -/
theorem merge_idempotent (S X : List Row) :
    merge (merge S X) X = merge S X := by
  have key : ∀ d : Option ℤ,
      lastWithDate d (merge S X ++ X) = lastWithDate d (S ++ X) := by
    intro d
    rw [lastWithDate_append, lastWithDate_append]
    by_cases h : X.filter (fun r => decide (r.Date = d)) = []
    · rw [if_pos h, if_pos h, lastWithDate_merge, lastWithDate_append, if_pos h]
    · rw [if_neg h, if_neg h]
  have hmem : ∀ x : Row, x ∈ merge (merge S X) X ↔ x ∈ merge S X := by
    intro x
    rw [mem_merge, mem_merge, key]
  have hpair1 : (merge (merge S X) X).Pairwise (fun a b => a.Date ≠ b.Date) :=
    merge_dates_pairwise (merge S X) X
  have hpair2 : (merge S X).Pairwise (fun a b => a.Date ≠ b.Date) :=
    merge_dates_pairwise S X
  have hnd1 : (merge (merge S X) X).Nodup :=
    hpair1.imp (fun h he => h (congrArg Row.Date he))
  have hnd2 : (merge S X).Nodup :=
    hpair2.imp (fun h he => h (congrArg Row.Date he))
  have hperm : (merge (merge S X) X).Perm (merge S X) :=
    (List.subperm_of_subset hnd1 (fun x hx => (hmem x).1 hx)).antisymm
      (List.subperm_of_subset hnd2 (fun x hx => (hmem x).2 hx))
  haveI : IsAntisymm Row (fun a b => dateLe a b ∧ a.Date ≠ b.Date) := by
    refine ⟨?_⟩
    rintro a b ⟨hab, hne⟩ ⟨hba, -⟩
    exfalso
    unfold dateLe at hab hba
    rcases ha : a.Date with _ | x <;> rcases hb : b.Date with _ | y <;>
      rw [ha, hb] at hab hba hne <;> simp at hab hba hne <;> omega
  exact List.eq_of_perm_of_sorted hperm
    ((merge_sorted (merge S X) X).and hpair1) ((merge_sorted S X).and hpair2)

/-! ### C10 — cleaning-report arithmetic -/

theorem ffillCol_length (get : Row → Option ℚ) (set : Row → Option ℚ → Row)
    (c : Option ℚ) (rows : List Row) :
    (ffillCol get set c rows).length = rows.length := by
  induction rows generalizing c with
  | nil => rfl
  | cons r rs ih =>
    rw [ffillCol]
    cases get r <;> simp [ih]

theorem bfillCol_length (get : Row → Option ℚ) (set : Row → Option ℚ → Row)
    (rows : List Row) : (bfillCol get set rows).length = rows.length := by
  rw [bfillCol, List.length_reverse, ffillCol_length, List.length_reverse]

theorem ffillAll_length (rows : List Row) :
    (ffillAll rows).length = rows.length := by
  rw [ffillAll, ffillCol_length, ffillCol_length, ffillCol_length,
    ffillCol_length]

theorem bfillAll_length (rows : List Row) :
    (bfillAll rows).length = rows.length := by
  rw [bfillAll, bfillCol_length, bfillCol_length, bfillCol_length,
    bfillCol_length]

/-- The imputation stage never adds rows. -/
theorem handle_missing_values_length_le (rows : List Row) :
    (handle_missing_values rows).1.length ≤ rows.length := by
  have hdef : handle_missing_values rows =
      if 0 < countMissing rows
      then ((bfillAll (ffillAll rows)).filter pricesComplete, countMissing rows)
      else (rows, 0) := rfl
  rw [hdef]
  by_cases h : 0 < countMissing rows
  · rw [if_pos h]
    calc ((bfillAll (ffillAll rows)).filter pricesComplete).length
        ≤ (bfillAll (ffillAll rows)).length := List.length_filter_le _ _
      _ = rows.length := by rw [bfillAll_length, ffillAll_length]
  · rw [if_neg h]

/-- The number of rows the imputation stage drops as unrecoverable during
a full `clean` run (`before - after` around its `dropna`). -/
def imputeDropCount (df : List Row) : Nat :=
  (dedupKeepLast df).length -
    (handle_missing_values (dedupKeepLast df)).1.length

/-- C10: over the integers, the report of a full `clean` run satisfies
`final_rows = original_rows - duplicates_removed - d` where `d` is the
number of rows dropped as unrecoverable during imputation; in particular
`final_rows ≤ original_rows`, and the three correction counters are
non-negative. -/
theorem clean_report_spec (df : List Row) :
    ((clean df).2.final_rows : ℤ) =
      ((clean df).2.original_rows : ℤ) -
        ((clean df).2.duplicates_removed : ℤ) - (imputeDropCount df : ℤ) ∧
    (clean df).2.final_rows ≤ (clean df).2.original_rows ∧
    0 ≤ ((clean df).2.duplicates_removed : ℤ) ∧
    0 ≤ ((clean df).2.missing_values_handled : ℤ) ∧
    0 ≤ ((clean df).2.outliers_detected : ℤ) := by
  have horig : (clean df).2.original_rows = df.length := rfl
  have hdup : (clean df).2.duplicates_removed =
      df.length - (dedupKeepLast df).length := rfl
  have hfin : (clean df).2.final_rows =
      (sort_data (validate_price_relationships
        (handle_missing_values (dedupKeepLast df)).1)).length := rfl
  have hsortlen : (clean df).2.final_rows =
      (handle_missing_values (dedupKeepLast df)).1.length := by
    rw [hfin, sort_data, (List.perm_insertionSort dateLe _).length_eq,
      validate_price_relationships, List.length_map]
  have hle1 : (dedupKeepLast df).length ≤ df.length :=
    (dedupKeepLast_sublist df).length_le
  have hle2 : (handle_missing_values (dedupKeepLast df)).1.length ≤
      (dedupKeepLast df).length :=
    handle_missing_values_length_le (dedupKeepLast df)
  have hdrop : imputeDropCount df =
      (dedupKeepLast df).length -
        (handle_missing_values (dedupKeepLast df)).1.length := rfl
  refine ⟨?_, ?_, ?_, ?_, ?_⟩ <;> omega
